import Mathlib

/-
Verification of the PDF-link scraper/downloader script
(src/PDF_DL_Website_App/PDF_DL_Website_App.py).

Strings are modelled as lists of characters; Python substring tests
(`needle in hay`) are modelled by an executable containment function;
the HTTP transport, browser page and filesystem are modelled as explicit
inputs, and each function's observable effects (transport calls, sleeps,
file writes, browser quit) are returned as data.
-/

/-- Python strings, modelled as lists of characters. -/
abbrev Str := List Char

/-- Python `s.lower()`: lowercase every character. -/
def lowerStr (s : Str) : Str := s.map Char.toLower

/-- Helper for substring containment: does `hay` start with `needle`? -/
def startsWith : Str → Str → Bool
  | [], _ => true
  | _ :: _, [] => false
  | a :: as, b :: bs => a == b && startsWith as bs

/-- Python `needle in hay` on strings: substring containment. -/
def containsSub (needle : Str) : Str → Bool
  | [] => needle.isEmpty
  | c :: rest => startsWith needle (c :: rest) || containsSub needle rest

/-- The literal `'.pdf'` from line 96 of the source. -/
def pdfNeedle : Str := ".pdf".data

/-- The literal `'consumereports.org'` from line 96 of the source. -/
def excludedDomain : Str := "consumereports.org".data

/-- The filter condition on line 96 of the source:
`'.pdf' in href.lower() and 'consumereports.org' not in href`. -/
def isPdfHref (h : Str) : Bool :=
  containsSub pdfNeedle (lowerStr h) && !(containsSub excludedDomain h)

/-- The anchor loop of `scrape_pdf_links` (lines 93-99): each anchor yields an
optional href (`get_attribute` may return None); `if href:` skips None and the
empty string; hrefs passing the line-96 condition are appended to the
accumulator in order. -/
def scrapeLoop (acc : List Str) : List (Option Str) → List Str
  | [] => acc
  | none :: rest => scrapeLoop acc rest
  | some [] :: rest => scrapeLoop acc rest
  | some (c :: h) :: rest =>
    if isPdfHref (c :: h) then scrapeLoop (acc ++ [c :: h]) rest
    else scrapeLoop acc rest

/-- The list `pdf_links` built by `scrape_pdf_links` from the page's anchors. -/
def filterLinks (anchors : List (Option Str)) : List Str := scrapeLoop [] anchors

theorem scrapeLoop_acc : ∀ (l : List (Option Str)) (acc : List Str),
    scrapeLoop acc l = acc ++ scrapeLoop [] l
  | [], acc => by simp [scrapeLoop]
  | none :: rest, acc => by
    show scrapeLoop acc rest = acc ++ scrapeLoop [] rest
    exact scrapeLoop_acc rest acc
  | some [] :: rest, acc => by
    show scrapeLoop acc rest = acc ++ scrapeLoop [] rest
    exact scrapeLoop_acc rest acc
  | some (c :: h) :: rest, acc => by
    show (if isPdfHref (c :: h) then scrapeLoop (acc ++ [c :: h]) rest
        else scrapeLoop acc rest) =
      acc ++ (if isPdfHref (c :: h) then scrapeLoop ([] ++ [c :: h]) rest
        else scrapeLoop [] rest)
    by_cases hp : isPdfHref (c :: h)
    · rw [if_pos hp, if_pos hp, scrapeLoop_acc rest (acc ++ [c :: h]),
        scrapeLoop_acc rest ([] ++ [c :: h])]
      simp
    · rw [if_neg hp, if_neg hp]
      exact scrapeLoop_acc rest acc

theorem isPdfHref_nil : isPdfHref [] = false := by decide

/-- The anchor loop is equivalent to dropping the absent hrefs and filtering
with the line-96 condition (empty hrefs fail that condition anyway). -/
theorem filterLinks_eq (l : List (Option Str)) :
    filterLinks l = (l.filterMap id).filter isPdfHref := by
  induction l with
  | nil => rfl
  | cons o rest ih =>
    match o with
    | none =>
      show scrapeLoop [] rest = ((none :: rest).filterMap id).filter isPdfHref
      have hfm : (none :: rest).filterMap (id : Option Str → Option Str) =
          rest.filterMap id := rfl
      rw [hfm]
      exact ih
    | some [] =>
      show scrapeLoop [] rest = ((some [] :: rest).filterMap id).filter isPdfHref
      have hfm : (some [] :: rest).filterMap (id : Option Str → Option Str) =
          ([] : Str) :: rest.filterMap id := rfl
      rw [hfm, List.filter_cons, isPdfHref_nil]
      exact ih
    | some (c :: h) =>
      show (if isPdfHref (c :: h) then scrapeLoop ([] ++ [c :: h]) rest
          else scrapeLoop [] rest) =
        ((some (c :: h) :: rest).filterMap id).filter isPdfHref
      have hfm : (some (c :: h) :: rest).filterMap (id : Option Str → Option Str) =
          (c :: h) :: rest.filterMap id := rfl
      rw [hfm, List.filter_cons]
      by_cases hp : isPdfHref (c :: h)
      · rw [if_pos hp, if_pos hp, scrapeLoop_acc]
        show (c :: h) :: filterLinks rest =
          (c :: h) :: List.filter isPdfHref (List.filterMap id rest)
        rw [ih]
      · rw [if_neg hp, if_neg hp]
        exact ih

/-- C1: For every sequence of href strings, the link filter returns exactly
those hrefs whose lowercase form contains the substring ".pdf" and whose raw
(case-sensitive) form does not contain the excluded domain substring
"consumereports.org", and the returned list preserves the input order
(it is the order-preserving `List.filter` of the input). -/
theorem scrape_filter_correct (hrefs : List Str) :
    filterLinks (hrefs.map some) = hrefs.filter isPdfHref ∧
    ∀ h : Str, h ∈ filterLinks (hrefs.map some) ↔
      h ∈ hrefs ∧ containsSub pdfNeedle (lowerStr h) = true ∧
        containsSub excludedDomain h = false := by
  have hmap : (hrefs.map some).filterMap (id : Option Str → Option Str) = hrefs := by
    induction hrefs with
    | nil => rfl
    | cons h rest ih => simp [ih]
  have key : filterLinks (hrefs.map some) = hrefs.filter isPdfHref := by
    rw [filterLinks_eq, hmap]
  refine ⟨key, fun h => ?_⟩
  rw [key, List.mem_filter, isPdfHref]
  constructor
  · rintro ⟨hm, hb⟩
    simp only [Bool.and_eq_true, Bool.not_eq_true'] at hb
    exact ⟨hm, hb.1, hb.2⟩
  · rintro ⟨hm, h1, h2⟩
    exact ⟨hm, by simp [h1, h2]⟩

/-- C9: anchors with an absent (None) or empty href are skipped before the
substring filters are applied: removing the None entries does not change the
result, a None or empty-string anchor at the head contributes nothing, and no
absent or empty href ever appears in the returned list. -/
theorem scrape_skips_null_hrefs (l : List (Option Str)) :
    filterLinks l = filterLinks ((l.filterMap id).map some) ∧
    (∀ rest : List (Option Str),
      filterLinks (none :: rest) = filterLinks rest ∧
      filterLinks (some [] :: rest) = filterLinks rest) ∧
    ∀ h : Str, h ∈ filterLinks l → h ≠ [] := by
  refine ⟨?_, ?_, ?_⟩
  · rw [filterLinks_eq, filterLinks_eq]
    congr 1
    induction (l.filterMap id) with
    | nil => rfl
    | cons h rest ih => simp [← ih]
  · intro rest
    constructor
    · show scrapeLoop [] rest = filterLinks rest
      rfl
    · show scrapeLoop [] rest = filterLinks rest
      rfl
  · intro h hm
    rw [filterLinks_eq] at hm
    have hp := (List.mem_filter.mp hm).2
    intro hnil
    rw [hnil, isPdfHref_nil] at hp
    exact Bool.false_ne_true hp

/-- Witness for C9 at a concrete input: the href ".pdf" survives the filter
applied to a page whose anchors are [None, Some "", Some ".pdf"], and it is
not the empty string. -/
theorem scrape_skips_null_hrefs_witness : (".pdf".data : Str) ≠ [] :=
  (scrape_skips_null_hrefs [none, some [], some ".pdf".data]).2.2
    ".pdf".data (by decide)

/-- An opaque-to-the-program Python exception value (only its identity
matters to the model). -/
structure PyExn where
  code : Nat
deriving DecidableEq, Repr

/-- Outcome of one call to the HTTP transport (`requests.get`, line 39):
either a response with a status code and a stream of byte chunks
(as produced by `iter_content(chunk_size=1024)`), or a raised exception. -/
inductive TResult where
  | ok (status : Nat) (chunks : List (List Nat)) : TResult
  | exn (e : PyExn) : TResult
deriving DecidableEq, Repr

/-- Observable effects of `download_pdf`: how many transport calls were made,
the durations of the `time.sleep` calls in order, and the bytes written to
`save_path` (None if the file was never opened). -/
structure DlState where
  calls : Nat
  sleeps : List Nat
  written : Option (List Nat)
deriving DecidableEq, Repr

/-- Initial downloader state: no calls, no sleeps, nothing written. -/
def dlInit : DlState := ⟨0, [], none⟩

/-- The write loop of lines 42-45: `open(save_path, 'wb')` then
`for chunk in iter_content: if chunk: pdf_file.write(chunk)` — the file ends
up holding the concatenation of the non-empty chunks. -/
def bodyBytes (chunks : List (List Nat)) : List Nat :=
  (chunks.filter (fun c => !c.isEmpty)).flatten

/-- The `for attempt in range(retries)` loop of lines 38-53, as a function of
the transport (attempt index ↦ transport outcome) and the remaining fuel
(`fuel = retries - attempt`). A raised exception aborts the loop carrying the
exception and the effects so far; status 200 writes the body and returns;
status 403 sleeps 2 and continues; any other status breaks. -/
def downloadLoop (t : Nat → TResult) : Nat → Nat → DlState → Except (PyExn × DlState) DlState
  | _, 0, s => .ok s
  | attempt, fuel + 1, s =>
    match t attempt with
    | .exn e => .error (e, ⟨s.calls + 1, s.sleeps, s.written⟩)
    | .ok status chunks =>
      if status = 200 then
        .ok ⟨s.calls + 1, s.sleeps, some (bodyBytes chunks)⟩
      else if status = 403 then
        downloadLoop t (attempt + 1) fuel ⟨s.calls + 1, s.sleeps ++ [2], s.written⟩
      else
        .ok ⟨s.calls + 1, s.sleeps, s.written⟩

/-- `download_pdf` (lines 17-55): runs the attempt loop inside
`try ... except Exception`, so a raised exception is caught and the function
returns normally; the caller can never observe an error (the `.error`
constructor of the result type is never produced), and no success/failure
value is returned beyond the effects. `retries` is a Python int;
`range(retries)` performs `max retries 0` iterations. -/
def download_pdf (t : Nat → TResult) (retries : Int) : Except PyExn DlState :=
  match downloadLoop t 0 retries.toNat dlInit with
  | .ok s => .ok s
  | .error (_, s) => .ok s

/-- C2: if the transport returns status 200 on the first attempt (with chunks
of at most 1024 bytes each), `download_pdf` with the default retries = 3 makes
exactly one transport call, sleeps never, writes the concatenation of the
non-empty chunks to the destination, and returns normally. -/
theorem download_succeeds_first_try (t : Nat → TResult) (chunks : List (List Nat))
    (_hsize : ∀ c ∈ chunks, c.length ≤ 1024)
    (h0 : t 0 = .ok 200 chunks) :
    download_pdf t 3 = .ok ⟨1, [], some (bodyBytes chunks)⟩ := by
  simp [download_pdf, downloadLoop, h0, dlInit]

/-- Witness for C2 at a concrete transport: one 200 response with chunks
[[1,2],[],[3]] writes [1,2,3] after exactly one call. -/
theorem download_succeeds_first_try_witness :
    download_pdf (fun _ => TResult.ok 200 [[1, 2], [], [3]]) 3 =
      .ok ⟨1, [], some (bodyBytes [[1, 2], [], [3]])⟩ :=
  download_succeeds_first_try (fun _ => TResult.ok 200 [[1, 2], [], [3]])
    [[1, 2], [], [3]] (by decide) rfl

/-- C3: if the transport returns 403 on the first two attempts and 200 on the
third, `download_pdf` with the default retries = 3 makes exactly 3 transport
calls, sleeps exactly twice for 2 time units each (once after each 403), and
writes the third response's body. -/
theorem download_retries_on_403 (t : Nat → TResult)
    (c0 c1 chunks : List (List Nat))
    (h0 : t 0 = .ok 403 c0) (h1 : t 1 = .ok 403 c1)
    (h2 : t 2 = .ok 200 chunks) :
    download_pdf t 3 = .ok ⟨3, [2, 2], some (bodyBytes chunks)⟩ := by
  simp [download_pdf, downloadLoop, h0, h1, h2, dlInit]

/-- Witness for C3 at a concrete transport (403, 403, then 200 with body
chunk [7]). -/
theorem download_retries_on_403_witness :
    download_pdf
        (fun i => if i ≤ 1 then TResult.ok 403 [] else TResult.ok 200 [[7]]) 3 =
      .ok ⟨3, [2, 2], some (bodyBytes [[7]])⟩ :=
  download_retries_on_403
    (fun i => if i ≤ 1 then TResult.ok 403 [] else TResult.ok 200 [[7]])
    [] [] [[7]] rfl rfl rfl

/-- C4 counterexample: on a transport that returns 403 on all 3 attempts, the
downloader's sleep sequence is [2, 2, 2] — three sleeps (the 403 branch on
line 50 sleeps unconditionally, also on the final attempt), not the two sleeps
the claim states. -/
theorem download_gives_up_counterexample :
    download_pdf (fun _ => TResult.ok 403 []) 3 = .ok ⟨3, [2, 2, 2], none⟩ ∧
    (⟨3, [2, 2, 2], none⟩ : DlState) ≠ ⟨3, [2, 2], none⟩ :=
  ⟨rfl, by decide⟩

/-- C4 (amended): if the transport returns 403 on all 3 attempts,
`download_pdf` with the default retries = 3 makes exactly 3 transport calls,
sleeps exactly three times for 2 time units each (once after each 403,
including the last attempt), writes no file, and still returns normally
(no failure is signalled). -/
theorem download_gives_up_after_retries (t : Nat → TResult)
    (c : Nat → List (List Nat)) (h : ∀ i < 3, t i = .ok 403 (c i)) :
    download_pdf t 3 = .ok ⟨3, [2, 2, 2], none⟩ := by
  have h0 := h 0 (by norm_num)
  have h1 := h 1 (by norm_num)
  have h2 := h 2 (by norm_num)
  simp [download_pdf, downloadLoop, h0, h1, h2, dlInit]

/-- Witness for C4 (amended) at a concrete all-403 transport. -/
theorem download_gives_up_after_retries_witness :
    download_pdf (fun _ => TResult.ok 403 []) 3 = .ok ⟨3, [2, 2, 2], none⟩ :=
  download_gives_up_after_retries (fun _ => TResult.ok 403 []) (fun _ => [])
    (fun _ _ => rfl)

/-- C5: if the transport returns a status other than 200 and 403 on the first
attempt, `download_pdf` makes exactly one transport call, writes no file, does
not sleep, and stops immediately without retrying. -/
theorem download_aborts_on_other_status (t : Nat → TResult)
    (status : Nat) (chunks : List (List Nat))
    (h0 : t 0 = .ok status chunks) (hn200 : status ≠ 200) (hn403 : status ≠ 403) :
    download_pdf t 3 = .ok ⟨1, [], none⟩ := by
  simp [download_pdf, downloadLoop, h0, hn200, hn403, dlInit]

/-- Witness for C5 at status 500. -/
theorem download_aborts_on_other_status_witness :
    download_pdf (fun _ => TResult.ok 500 [[9]]) 3 = .ok ⟨1, [], none⟩ :=
  download_aborts_on_other_status (fun _ => TResult.ok 500 [[9]]) 500 [[9]]
    rfl (by decide) (by decide)

/-- C6: for every transport and retry count, `download_pdf` never propagates
an exception to its caller: its result is always `.ok` (returning None in
Python, with no success/failure signal), and in particular when the attempt
loop is aborted by a raised exception, `download_pdf` catches it and returns
the effects accumulated so far. -/
theorem download_never_propagates (t : Nat → TResult) (retries : Int) :
    (∃ s, download_pdf t retries = .ok s) ∧
    ∀ e s, downloadLoop t 0 retries.toNat dlInit = .error (e, s) →
      download_pdf t retries = .ok s := by
  constructor
  · unfold download_pdf
    match downloadLoop t 0 retries.toNat dlInit with
    | .ok s => exact ⟨s, rfl⟩
    | .error (e, s) => exact ⟨s, rfl⟩
  · intro e s hloop
    unfold download_pdf
    rw [hloop]

/-- Witness for C6 at a concrete raising transport: the exception raised on
the first call is caught after one transport call, nothing written. -/
theorem download_never_propagates_witness :
    download_pdf (fun _ => TResult.exn ⟨1⟩) 3 = .ok ⟨1, [], none⟩ :=
  (download_never_propagates (fun _ => TResult.exn ⟨1⟩) 3).2 ⟨1⟩ ⟨1, [], none⟩ rfl

/-- C10: if `download_pdf` is called with retries ≤ 0, the attempt loop body
never runs: no transport call is made, nothing is slept, no file is written,
and the function returns normally. -/
theorem download_no_attempts_nonpositive (t : Nat → TResult) (retries : Int)
    (h : retries ≤ 0) :
    download_pdf t retries = .ok dlInit := by
  have hz : retries.toNat = 0 := Int.toNat_of_nonpos h
  simp [download_pdf, downloadLoop, hz]

/-- Witness for C10 at retries = 0. -/
theorem download_no_attempts_nonpositive_witness :
    download_pdf (fun _ => TResult.ok 200 [[1]]) 0 = .ok dlInit :=
  download_no_attempts_nonpositive (fun _ => TResult.ok 200 [[1]]) 0 (by decide)

/-- The environment `scrape_pdf_links` runs against: the outcome of
`driver.get` (line 83), the outcome of the `WebDriverWait` (lines 86-88), and
the anchors' optional href attributes (lines 93-94). -/
structure Page where
  nav : Except PyExn Unit
  wait : Except PyExn Unit
  anchors : List (Option Str)

/-- Observable outcome of `scrape_pdf_links`: what the caller sees (either the
link list, or a propagated exception) and whether `driver.quit` ran. -/
structure ScrapeResult where
  result : Except PyExn (List Str)
  quitCalled : Bool

/-- The body of the `try` block (lines 82-104): navigate, wait, then build the
filtered link list; an exception from navigation or waiting aborts the rest. -/
def scrapeBody (p : Page) : Except PyExn (List Str) :=
  match p.nav with
  | .error e => .error e
  | .ok _ =>
    match p.wait with
    | .error e => .error e
    | .ok _ => .ok (filterLinks p.anchors)

/-- `scrape_pdf_links` (lines 64-105): the try body runs under
`try ... finally: driver.quit()`, so `driver.quit` runs on every path and the
body's outcome — value or uncaught exception — is passed through unchanged. -/
def scrape_pdf_links (p : Page) : ScrapeResult :=
  match scrapeBody p with
  | .ok links => ⟨.ok links, true⟩
  | .error e => ⟨.error e, true⟩

/-- C7: the scraper releases its browser on every exit path: `quitCalled` is
true for every page, and when navigation or the wait step raises, the browser
is still quit and that same exception propagates uncaught to the caller. -/
theorem scraper_quits_on_all_paths (p : Page) :
    (scrape_pdf_links p).quitCalled = true ∧
    (∀ e, p.nav = .error e → (scrape_pdf_links p).result = .error e) ∧
    ∀ e, p.nav = .ok () → p.wait = .error e →
      (scrape_pdf_links p).result = .error e := by
  refine ⟨?_, ?_, ?_⟩
  · unfold scrape_pdf_links
    match scrapeBody p with
    | .ok links => rfl
    | .error e => rfl
  · intro e hnav
    unfold scrape_pdf_links scrapeBody
    rw [hnav]
  · intro e hnav hwait
    unfold scrape_pdf_links scrapeBody
    rw [hnav, hwait]

/-- Witness for C7 at a concrete page whose navigation raises: the browser is
quit and the exception is the caller's result. -/
theorem scraper_quits_on_all_paths_witness :
    (scrape_pdf_links ⟨.error ⟨7⟩, .ok (), []⟩).quitCalled = true ∧
    (scrape_pdf_links ⟨.error ⟨7⟩, .ok (), []⟩).result = .error ⟨7⟩ :=
  ⟨(scraper_quits_on_all_paths ⟨.error ⟨7⟩, .ok (), []⟩).1,
   (scraper_quits_on_all_paths ⟨.error ⟨7⟩, .ok (), []⟩).2.1 ⟨7⟩ rfl⟩

/-- Python `s.split(sep)` for a one-character separator: always returns at
least one (possibly empty) piece, keeps empty pieces. -/
def pySplit (sep : Char) : Str → List Str
  | [] => [[]]
  | c :: cs =>
    match pySplit sep cs with
    | [] => [[]]
    | r :: rs => if c = sep then [] :: r :: rs else (c :: r) :: rs

/-- `pdf_url.split('/')[-1]` from line 124 of the source: the last piece of
the split (the split is never empty, so Python's `[-1]` is the last element). -/
def lastSegment (s : Str) : Str := (pySplit '/' s).getLastD []

/-- The hardcoded save directory from line 122 of the source. -/
def saveDir : Str := "C:\\Users\\Cruci\\source\\repos\\PDF_DL_Website_App".data

/-- `os.path.join(save_dir, name)` from line 124, on the Windows-style
directory the source hardcodes (no trailing separator on the left, relative
name on the right): directory, separator, name. -/
def osPathJoin (dir name : Str) : Str := dir ++ '\\' :: name

/-- The download loop of `main` (lines 121-125): for each scraped link in
order, the pair of the URL passed to `download_pdf` and the destination path
it is saved to. -/
def mainDownloads (links : List Str) : List (Str × Str) :=
  links.map (fun u => (u, osPathJoin saveDir (lastSegment u)))

/-- The spec's description of the derived name: the substring of the URL after
the last '/' (read off from the end: the longest slash-free suffix). -/
def afterLastSlash (s : Str) : Str :=
  (s.reverse.takeWhile (fun c => c != '/')).reverse

theorem pySplit_cons (sep c : Char) (cs : Str) (r : Str) (rs : List Str)
    (hP : pySplit sep cs = r :: rs) :
    pySplit sep (c :: cs) = if c = sep then [] :: r :: rs else (c :: r) :: rs := by
  unfold pySplit
  rw [hP]

theorem pySplit_ne_nil (sep : Char) (s : Str) : pySplit sep s ≠ [] := by
  induction s with
  | nil => simp [pySplit]
  | cons c cs ih =>
    obtain ⟨r, rs, hP⟩ : ∃ r rs, pySplit sep cs = r :: rs := by
      match hQ : pySplit sep cs with
      | [] => exact absurd hQ ih
      | r :: rs => exact ⟨r, rs, rfl⟩
    rw [pySplit_cons sep c cs r rs hP]
    by_cases hc : c = sep
    · rw [if_pos hc]; simp
    · rw [if_neg hc]; simp

theorem pySplit_no_slash (sep : Char) (s : Str) (h : sep ∉ s) :
    pySplit sep s = [s] := by
  induction s with
  | nil => rfl
  | cons c cs ih =>
    have hc : c ≠ sep := fun hc => h (hc ▸ List.mem_cons_self c cs)
    have hcs : sep ∉ cs := fun hm => h (List.mem_cons_of_mem c hm)
    rw [pySplit_cons sep c cs cs [] (ih hcs), if_neg hc]

theorem pySplit_mem_slash (sep : Char) (s : Str) (h : sep ∈ s) :
    ∃ r rs, pySplit sep s = r :: rs ∧ rs ≠ [] := by
  induction s with
  | nil => cases h
  | cons c cs ih =>
    obtain ⟨r, rs, hP⟩ : ∃ r rs, pySplit sep cs = r :: rs := by
      match hQ : pySplit sep cs with
      | [] => exact absurd hQ (pySplit_ne_nil sep cs)
      | r :: rs => exact ⟨r, rs, rfl⟩
    by_cases hc : c = sep
    · exact ⟨[], r :: rs, by rw [pySplit_cons sep c cs r rs hP, if_pos hc], by simp⟩
    · have hcs : sep ∈ cs := by
        cases List.mem_cons.mp h with
        | inl heq => exact absurd heq.symm hc
        | inr hm => exact hm
      obtain ⟨r', rs', hP', hrs'⟩ := ih hcs
      exact ⟨c :: r', rs', by rw [pySplit_cons sep c cs r' rs' hP', if_neg hc], hrs'⟩

theorem getLastD_irrel {α : Type} (l : List α) (h : l ≠ []) (d d' : α) :
    l.getLastD d = l.getLastD d' := by
  match l with
  | [] => exact absurd rfl h
  | a :: l => rw [List.getLastD_cons, List.getLastD_cons]

theorem takeWhile_append_stop {α : Type} (p : α → Bool) (l l' : List α)
    (h : ∃ a ∈ l, p a = false) : (l ++ l').takeWhile p = l.takeWhile p := by
  induction l with
  | nil =>
    obtain ⟨a, ha, _⟩ := h
    cases ha
  | cons a l ih =>
    by_cases hp : p a
    · have h' : ∃ b ∈ l, p b = false := by
        obtain ⟨b, hb, hbf⟩ := h
        cases List.mem_cons.mp hb with
        | inl heq => rw [heq] at hbf; rw [hp] at hbf; cases hbf
        | inr hm => exact ⟨b, hm, hbf⟩
      simp only [List.cons_append, List.takeWhile_cons, hp]
      rw [ih h']
    · simp only [List.cons_append, List.takeWhile_cons,
        Bool.not_eq_true] at hp ⊢
      rw [hp]
      simp

theorem takeWhile_append_last {α : Type} (p : α → Bool) (l : List α) (x : α)
    (hx : p x = false) : (l ++ [x]).takeWhile p = l.takeWhile p := by
  induction l with
  | nil => simp [List.takeWhile_cons, hx]
  | cons a l ih =>
    by_cases hp : p a
    · rw [List.cons_append, List.takeWhile_cons, List.takeWhile_cons, hp,
        if_pos rfl, if_pos rfl, ih]
    · rw [Bool.not_eq_true] at hp
      rw [List.cons_append, List.takeWhile_cons, List.takeWhile_cons, hp]
      simp

theorem takeWhile_all {α : Type} (p : α → Bool) (l : List α)
    (h : ∀ a ∈ l, p a = true) : l.takeWhile p = l := by
  induction l with
  | nil => rfl
  | cons a l ih =>
    rw [List.takeWhile_cons, h a (List.mem_cons_self a l), if_pos rfl,
      ih (fun b hb => h b (List.mem_cons_of_mem a hb))]

/-- `split('/')[-1]` computes exactly the substring after the last '/'. -/
theorem lastSegment_eq_afterLastSlash (s : Str) :
    lastSegment s = afterLastSlash s := by
  induction s with
  | nil => rfl
  | cons c cs ih =>
    obtain ⟨r, rs, hP⟩ : ∃ r rs, pySplit '/' cs = r :: rs := by
      match hQ : pySplit '/' cs with
      | [] => exact absurd hQ (pySplit_ne_nil '/' cs)
      | r :: rs => exact ⟨r, rs, rfl⟩
    by_cases hc : c = '/'
    · have hL : lastSegment (c :: cs) = lastSegment cs := by
        unfold lastSegment
        rw [pySplit_cons '/' c cs r rs hP, if_pos hc, List.getLastD_cons, hP]
      have hR : afterLastSlash (c :: cs) = afterLastSlash cs := by
        unfold afterLastSlash
        rw [List.reverse_cons, takeWhile_append_last _ _ c (by simp [hc])]
      rw [hL, hR, ih]
    · by_cases hmem : '/' ∈ cs
      · obtain ⟨r', rs', hP', hrs'⟩ := pySplit_mem_slash '/' cs hmem
        have hL : lastSegment (c :: cs) = lastSegment cs := by
          unfold lastSegment
          rw [pySplit_cons '/' c cs r' rs' hP', if_neg hc, List.getLastD_cons,
            hP', List.getLastD_cons, getLastD_irrel rs' hrs' (c :: r') r']
        have hR : afterLastSlash (c :: cs) = afterLastSlash cs := by
          unfold afterLastSlash
          rw [List.reverse_cons, takeWhile_append_stop _ _ [c]
            ⟨'/', by simpa using hmem, by simp⟩]
        rw [hL, hR, ih]
      · have hL : lastSegment (c :: cs) = c :: cs := by
          unfold lastSegment
          rw [pySplit_cons '/' c cs cs [] (pySplit_no_slash '/' cs hmem),
            if_neg hc, List.getLastD_cons]
          rfl
        have hR : afterLastSlash (c :: cs) = c :: cs := by
          unfold afterLastSlash
          rw [takeWhile_all _ _ ?_, List.reverse_reverse]
          intro a ha
          rw [List.mem_reverse, List.mem_cons] at ha
          cases ha with
          | inl heq =>
            simp [heq, hc]
          | inr hm =>
            simp only [bne_iff_ne, ne_eq]
            intro hcontra
            exact hmem (hcontra ▸ hm)
        rw [hL, hR]

/-- C8: for every scraped link list, `main` downloads the links sequentially
in the scraper's order (the URLs of the planned downloads are exactly the
input list), and each link's destination path is the hardcoded save directory
joined with the URL's final path segment — the substring after the last '/'. -/
theorem main_download_naming (links : List Str) :
    (mainDownloads links).map Prod.fst = links ∧
    mainDownloads links = links.map
      (fun u => (u, osPathJoin saveDir (afterLastSlash u))) := by
  constructor
  · unfold mainDownloads
    rw [List.map_map]
    exact List.map_id links
  · unfold mainDownloads
    refine List.map_congr_left (fun u _ => ?_)
    rw [lastSegment_eq_afterLastSlash]
